import Mathlib

/-!
Verification development for scripts/scan_network.py (PFT network analytics
scanner): a shallow embedding of the paginated account_tx fetch loop, the
reward/memo aggregation passes, the balance enrichment and the report
assembly, together with theorems settling the specification claims.

Monetary values are embedded as exact rationals (the Python script computes
on IEEE floats; the rational model captures the same arithmetic expressions
exactly).  Python dicts are embedded as insertion-ordered association lists,
Python's stable sort as List.mergeSort, and Python string operations as
functions over the underlying character lists.
-/

namespace PFT

/-- REWARD_ADDRESSES: the reward source wallets. -/
def REWARD_ADDRESSES : List String :=
  ["rGBKxoTcavpfEso7ASRELZAMcCMqKa8oFk",
   "rKt4peDozpRW9zdYGiTZC54DSNU3Af6pQE",
   "rJNwqDPKSkbqDPNoNxbW6C3KCS84ZaQc96",
   "rKddMw1hqMGwfgJvzjbWQHtBQT8hDcZNCP"]

/-- MEMO_ADDRESS: receives task memos. -/
def MEMO_ADDRESS : String := "rwdm72S9YVKkZjeADKU2bbUMuY4vPnSfH7"

/-- SYSTEM_ACCOUNTS = set(REWARD_ADDRESSES + [MEMO_ADDRESS, blackhole]). -/
def SYSTEM_ACCOUNTS : List String :=
  REWARD_ADDRESSES ++ [MEMO_ADDRESS, "rrrrrrrrrrrrrrrrrrrrrhoLvTp"]

def RIPPLE_EPOCH : Nat := 946684800

/-- unix_from_ripple(ripple_ts) = ripple_ts + RIPPLE_EPOCH. -/
def unix_from_ripple (ripple_ts : Nat) : Nat := ripple_ts + RIPPLE_EPOCH

/-- A JSON field value as the script discriminates it: a string, an integer,
an absent/None value, or any other shape (object, array, float, ...). -/
inductive JsonVal where
  | str (s : String)
  | int (n : ℤ)
  | null
  | other
deriving DecidableEq, Repr

/-- Digit run to its numeric value, as Python int() computes it. -/
def digitsVal (cs : List Char) : Nat :=
  cs.foldl (fun n c => n * 10 + (c.toNat - 48)) 0

/-- Python int(s) on a string: optional sign followed by a non-empty digit
run.  (Python additionally tolerates surrounding whitespace and digit-group
underscores; those inputs do not occur in ledger data and are not modelled.) -/
def pyIntOfChars (cs : List Char) : Option ℤ :=
  match cs with
  | [] => none
  | c :: rest =>
    if c = ('-') then
      if rest.isEmpty then none
      else if rest.all Char.isDigit then some (-(digitsVal rest : ℤ)) else none
    else if c = ('+') then
      if rest.isEmpty then none
      else if rest.all Char.isDigit then some ((digitsVal rest : ℤ)) else none
    else if (c :: rest).all Char.isDigit then some ((digitsVal (c :: rest) : ℤ))
    else none

def pyInt? (s : String) : Option ℤ := pyIntOfChars s.data

/-- parse_pft_amount: drops string or int, divided by 1,000,000; any other
shape or parse failure yields None. -/
def parse_pft_amount : JsonVal → Option ℚ
  | .str s =>
    match pyInt? s with
    | some drops => some ((drops : ℚ) / 1000000)
    | none => none
  | .int n => some ((n : ℚ) / 1000000)
  | .null => none
  | .other => none

/-- A Memo wrapper's MemoType hex field ("" when missing). -/
structure Memo where
  memoType : String
deriving DecidableEq, Repr

/-- One transaction as the script reads it (fields via .get with defaults;
the meta object is never used). -/
structure Tx where
  transactionType : String
  account : String
  destination : String
  amount : JsonVal
  date : Nat
  hash : String
  memos : List Memo
deriving DecidableEq, Repr

/-- Civil date (y, m, d) from days since 1970-01-01 (Gregorian calendar,
the computation datetime.fromtimestamp performs for UTC). -/
def civilFromDays (z0 : Nat) : Nat × Nat × Nat :=
  let z := z0 + 719468
  let era := z / 146097
  let doe := z % 146097
  let yoe := (doe - doe / 1460 + doe / 36524 - doe / 146096) / 365
  let y := yoe + era * 400
  let doy := doe - (365 * yoe + yoe / 4 - yoe / 100)
  let mp := (5 * doy + 2) / 153
  let d := doy - (153 * mp + 2) / 5 + 1
  let m := if mp < 10 then mp + 3 else mp - 9
  (if m ≤ 2 then y + 1 else y, m, d)

def pad2 (n : Nat) : String := if n < 10 then "0" ++ toString n else toString n

def pad4 (n : Nat) : String :=
  if n < 10 then "000" ++ toString n
  else if n < 100 then "00" ++ toString n
  else if n < 1000 then "0" ++ toString n
  else toString n

/-- strftime("%Y-%m-%d") in UTC of a unix timestamp. -/
def dayOfUnix (ts : Nat) : String :=
  let c := civilFromDays (ts / 86400)
  pad4 c.1 ++ "-" ++ pad2 c.2.1 ++ "-" ++ pad2 c.2.2

/-- unix_ts = unix_from_ripple(close_time) if close_time else 0. -/
def txUnixTs (tx : Tx) : Nat :=
  if tx.date ≠ 0 then unix_from_ripple tx.date else 0

/-- day = strftime("%Y-%m-%d") if unix_ts else "unknown". -/
def txDay (tx : Tx) : String :=
  if txUnixTs tx ≠ 0 then dayOfUnix (txUnixTs tx) else "unknown"

/-- defaultdict accumulation: add v at key k, inserting the key at the end
on first touch (Python dicts preserve insertion order). -/
def bump {α : Type} [Add α] (k : String) (v : α) :
    List (String × α) → List (String × α)
  | [] => [(k, v)]
  | (k', v') :: rest =>
    if k' = k then (k', v' + v) :: rest else (k', v') :: bump k v rest

/-- set.add: membership-based insertion. -/
def setInsert (a : String) (l : List String) : List String :=
  if a ∈ l then l else a :: l

/-- dict.get(k, d) on an association list. -/
def lookupD {α : Type} (l : List (String × α)) (k : String) (d : α) : α :=
  match l.find? (fun p => p.1 = k) with
  | some p => p.2
  | none => d

/-- Python round() ties-to-even on an exact rational. -/
def roundHalfEven (q : ℚ) : ℤ :=
  let f := ⌊q⌋
  let r := q - (f : ℚ)
  if r < 1 / 2 then f
  else if 1 / 2 < r then f + 1
  else if f % 2 = 0 then f else f + 1

/-- round(q, 2). -/
def round2 (q : ℚ) : ℚ := (roundHalfEven (q * 100) : ℚ) / 100

/-! ## Paginated fetcher (fetch_all_account_tx) -/

/-- One account_tx page as returned by the node: the transactions list and
the optional continuation marker (opaque; only its presence matters). -/
structure Page where
  transactions : List Tx
  marker : Option Nat
deriving DecidableEq, Repr

/-- Outcome of a fetch run: the accumulated records, the number of
account_tx calls issued, and the size of the last page received. -/
structure FetchOut where
  txs : List Tx
  calls : Nat
  lastPageLen : Nat
deriving DecidableEq, Repr

/-- The fetch loop, driven by the sequence of pages the node would answer
with (the i-th call receives the i-th page; an exhausted page list ends the
run).  Mirrors the source: the cap is checked before each call, an empty
page stops, records are extended, a missing marker stops. -/
def fetch_all_account_tx_from (maxTxs : Nat) :
    List Page → List Tx → Nat → Nat → FetchOut
  | [], acc, calls, lastLen => ⟨acc, calls, lastLen⟩
  | p :: rest, acc, calls, lastLen =>
    if maxTxs ≤ acc.length then ⟨acc, calls, lastLen⟩
    else if p.transactions.isEmpty then ⟨acc, calls + 1, p.transactions.length⟩
    else
      match p.marker with
      | none => ⟨acc ++ p.transactions, calls + 1, p.transactions.length⟩
      | some _ =>
        fetch_all_account_tx_from maxTxs rest (acc ++ p.transactions)
          (calls + 1) p.transactions.length

/-- fetch_all_account_tx(account, max_txs): start with no records, no calls. -/
def fetch_all_account_tx (maxTxs : Nat) (pages : List Page) : FetchOut :=
  fetch_all_account_tx_from maxTxs pages [] 0 0

/-- Modelled from the spec: the stop conditions of section 4.1, checked in
the spec's order each iteration — (a) empty record list, (b) accumulated
count at least the hard cap, (c) no marker.  Used to compare the source's
loop against the spec's description. -/
def specFetchFrom (maxTxs : Nat) : List Page → List Tx → Nat → List Tx × Nat
  | [], acc, calls => (acc, calls)
  | p :: rest, acc, calls =>
    if p.transactions.isEmpty then (acc, calls + 1)
    else
      let acc' := acc ++ p.transactions
      if maxTxs ≤ acc'.length then (acc', calls + 1)
      else
        match p.marker with
        | none => (acc', calls + 1)
        | some _ => specFetchFrom maxTxs rest acc' (calls + 1)

/-- Modelled from the spec: the whole fetch under the spec's stop rules. -/
def specFetch (maxTxs : Nat) (pages : List Page) : List Tx × Nat :=
  specFetchFrom maxTxs pages [] 0

/-! ## Reward aggregation (analyze_reward_transactions) -/

/-- One entry of reward_list. -/
structure RewardEntry where
  hash : String
  recipient : String
  pft : ℚ
  timestamp : Nat
  date : String
deriving DecidableEq, Repr

/-- The accumulators of the reward scan loop. -/
structure RewardState where
  participants : List String
  rewardsByRecipient : List (String × ℚ)
  rewardsByDay : List (String × ℚ)
  txCountByDay : List (String × Nat)
  totalPft : ℚ
  rewardList : List RewardEntry
deriving DecidableEq, Repr

def initRewardState : RewardState := ⟨[], [], [], [], 0, []⟩

/-- One iteration of the reward scan loop over a tx wrapper. -/
def rewardStep (st : RewardState) (tx : Tx) : RewardState :=
  if tx.transactionType = ("Payment") then
    if tx.account ∈ REWARD_ADDRESSES then
      match parse_pft_amount tx.amount with
      | some pft =>
        if 0 < pft then
          if tx.destination ∈ SYSTEM_ACCOUNTS then st
          else
            let day := txDay tx
            { participants := setInsert tx.destination st.participants
              rewardsByRecipient := bump tx.destination pft st.rewardsByRecipient
              rewardsByDay := bump day pft st.rewardsByDay
              txCountByDay := bump day 1 st.txCountByDay
              totalPft := st.totalPft + pft
              rewardList := st.rewardList ++
                [⟨tx.hash, tx.destination, pft, txUnixTs tx, day⟩] }
        else st
      | none => st
    else st
  else st

/-- The whole scan pass of analyze_reward_transactions. -/
def rewardFold (txs : List Tx) : RewardState :=
  txs.foldl rewardStep initRewardState

/-- The conjunction of the per-record qualification checks of the reward
loop: Payment type, source in the allow-list, parsable positive amount,
destination not excluded. -/
def rewardQualifies (tx : Tx) : Bool :=
  decide (tx.transactionType = ("Payment")) &&
  decide (tx.account ∈ REWARD_ADDRESSES) &&
  (match parse_pft_amount tx.amount with
   | some pft => decide (0 < pft)
   | none => false) &&
  !(decide (tx.destination ∈ SYSTEM_ACCOUNTS))

/-! ## Balance enrichment (fetch_account_balance) -/

/-- An account_info response as the script inspects it: whether the result
object carries an "error" key, and the account_data Balance field
(.str "0" models the missing-Balance default). -/
structure AccountInfoResp where
  hasError : Bool
  balanceField : JsonVal
deriving DecidableEq, Repr

/-- fetch_account_balance: error result or unparsable Balance yields 0.0,
otherwise Balance drops divided by 1,000,000. -/
def fetch_account_balance (resp : AccountInfoResp) : ℚ :=
  if resp.hasError then 0
  else
    match resp.balanceField with
    | .str s =>
      match pyInt? s with
      | some n => (n : ℚ) / 1000000
      | none => 0
    | .int n => (n : ℚ) / 1000000
    | .null => 0
    | .other => 0

/-- The balance fetch loop over the recipient keys, given the node's
response for each address. -/
def enrichBalances (respFor : String → AccountInfoResp) (addrs : List String) :
    List (String × ℚ) :=
  addrs.map fun a => (a, fetch_account_balance (respFor a))

/-! ## Report pieces -/

structure LeaderboardEntry where
  address : String
  total_pft : ℚ
  balance : ℚ
deriving DecidableEq, Repr

/-- Descending lexicographic comparison on (balance, total) keys; Python's
sorted(key=(balance, total), reverse=True) is the stable sort under this
comparator. -/
def pairGe (x y : ℚ × ℚ) : Bool :=
  decide (y.1 < x.1) || (decide (y.1 = x.1) && decide (y.2 ≤ x.2))

def lbLe (a b : LeaderboardEntry) : Bool :=
  pairGe (a.balance, a.total_pft) (b.balance, b.total_pft)

/-- Lexicographic by code point on character lists (Python string <). -/
def charListLt : List Char → List Char → Bool
  | [], [] => false
  | [], _ :: _ => true
  | _ :: _, [] => false
  | a :: as, b :: bs =>
    if a < b then true else if b < a then false else charListLt as bs

/-- Lexicographic by code point on character lists (Python string <=). -/
def charListLe : List Char → List Char → Bool
  | [], _ => true
  | _ :: _, [] => false
  | a :: as, b :: bs =>
    if a < b then true else if b < a then false else charListLe as bs

def strLt (a b : String) : Bool := charListLt a.data b.data

def strLe (a b : String) : Bool := charListLe a.data b.data

structure DailyReward where
  date : String
  pft : ℚ
  tx_count : Nat
deriving DecidableEq, Repr

structure RewardSummary where
  total_pft_distributed : ℚ
  unique_recipients : Nat
  total_reward_transactions : Nat
  leaderboard : List LeaderboardEntry
  daily_activity : List DailyReward
  recent_rewards : List RewardEntry
deriving DecidableEq, Repr

/-- analyze_reward_transactions: scan pass, balance enrichment, leaderboard
sort/truncate, daily series sort, recent list truncate. -/
def analyze_reward_transactions (respFor : String → AccountInfoResp)
    (txs : List Tx) : RewardSummary :=
  let st := rewardFold txs
  let balances := enrichBalances respFor (st.rewardsByRecipient.map Prod.fst)
  { total_pft_distributed := round2 st.totalPft
    unique_recipients := st.participants.length
    total_reward_transactions := st.rewardList.length
    leaderboard :=
      ((st.rewardsByRecipient.map fun p =>
          LeaderboardEntry.mk p.1 (round2 p.2) (round2 (lookupD balances p.1 0))).mergeSort
        lbLe).take 25
    daily_activity :=
      (st.rewardsByDay.map fun p =>
        DailyReward.mk p.1 (round2 p.2) (lookupD st.txCountByDay p.1 0)).mergeSort
        (fun a b => strLe a.date b.date)
    recent_rewards := st.rewardList.take 50 }

/-! ## Memo aggregation (analyze_memo_transactions) -/

/-- The pf.ptr memo tag fragment, as a lower-case hex string. -/
def PTR_TAG : String := "70662e707472"

/-- needle is a prefix of hay (character lists). -/
def leadsWith : List Char → List Char → Bool
  | [], _ => true
  | _ :: _, [] => false
  | a :: as, b :: bs => (a = b) && leadsWith as bs

/-- Python "needle in hay" substring containment on character lists. -/
def containsSeq (needle : List Char) : List Char → Bool
  | [] => needle.isEmpty
  | b :: rest => leadsWith needle (b :: rest) || containsSeq needle rest

/-- "70662e707472" in memo_type.lower(). -/
def memoHasPtr (m : Memo) : Bool :=
  containsSeq PTR_TAG.data (m.memoType.data.map Char.toLower)

/-- The conjunction of the memo loop's per-record checks. -/
def memoQualifies (tx : Tx) : Bool :=
  decide (tx.transactionType = ("Payment")) &&
  decide (tx.destination = MEMO_ADDRESS) &&
  !(decide (tx.account ∈ SYSTEM_ACCOUNTS)) &&
  tx.memos.any memoHasPtr

structure SubmissionEntry where
  hash : String
  sender : String
  timestamp : Nat
  date : String
deriving DecidableEq, Repr

structure MemoState where
  submitters : List String
  submissionsBySender : List (String × Nat)
  submissionsByDay : List (String × Nat)
  totalSubmissions : Nat
  submissionList : List SubmissionEntry
deriving DecidableEq, Repr

def initMemoState : MemoState := ⟨[], [], [], 0, []⟩

/-- One iteration of the memo scan loop. -/
def memoStep (st : MemoState) (tx : Tx) : MemoState :=
  if tx.transactionType = ("Payment") then
    if tx.destination = MEMO_ADDRESS then
      if tx.account ∈ SYSTEM_ACCOUNTS then st
      else if tx.memos.any memoHasPtr then
        let day := txDay tx
        { submitters := setInsert tx.account st.submitters
          submissionsBySender := bump tx.account 1 st.submissionsBySender
          submissionsByDay := bump day 1 st.submissionsByDay
          totalSubmissions := st.totalSubmissions + 1
          submissionList := st.submissionList ++
            [⟨tx.hash, tx.account, txUnixTs tx, day⟩] }
      else st
    else st
  else st

def memoFold (txs : List Tx) : MemoState :=
  txs.foldl memoStep initMemoState

structure SubmitterEntry where
  address : String
  submissions : Nat
deriving DecidableEq, Repr

structure DailySubmissions where
  date : String
  submissions : Nat
deriving DecidableEq, Repr

structure SubmissionSummary where
  total_submissions : Nat
  unique_submitters : Nat
  top_submitters : List SubmitterEntry
  daily_submissions : List DailySubmissions
  recent_submissions : List SubmissionEntry
deriving DecidableEq, Repr

/-- analyze_memo_transactions. -/
def analyze_memo_transactions (txs : List Tx) : SubmissionSummary :=
  let st := memoFold txs
  { total_submissions := st.totalSubmissions
    unique_submitters := st.submitters.length
    top_submitters :=
      ((st.submissionsBySender.map fun p => SubmitterEntry.mk p.1 p.2).mergeSort
        (fun a b => decide (b.submissions ≤ a.submissions))).take 25
    daily_submissions :=
      (st.submissionsByDay.map fun p => DailySubmissions.mk p.1 p.2).mergeSort
        (fun a b => strLe a.date b.date)
    recent_submissions := st.submissionList.take 50 }

/-! ## Concrete sample records -/

/-- A transaction with every field at the script's .get default. -/
def blankTx : Tx :=
  { transactionType := "Other", account := "", destination := "",
    amount := JsonVal.null, date := 0, hash := "", memos := [] }

/-- A qualifying reward payment of 1,500,000 drops to a fresh recipient. -/
def tx15 : Tx :=
  { transactionType := "Payment",
    account := "rGBKxoTcavpfEso7ASRELZAMcCMqKa8oFk",
    destination := "rDest1", amount := JsonVal.str ("1500000"), date := 0,
    hash := "h1", memos := [] }

/-! ## Fetcher lemmas -/

theorem fetch_from_stopped (maxTxs : Nat) (pages : List Page) (acc : List Tx)
    (calls lastLen : Nat) (h : maxTxs ≤ acc.length) :
    fetch_all_account_tx_from maxTxs pages acc calls lastLen =
      ⟨acc, calls, lastLen⟩ := by
  cases pages with
  | nil => rfl
  | cons p rest => simp [fetch_all_account_tx_from, h]

theorem fetch_from_eq_spec (maxTxs : Nat) :
    ∀ (pages : List Page) (acc : List Tx) (calls lastLen : Nat),
      acc.length < maxTxs →
      ((fetch_all_account_tx_from maxTxs pages acc calls lastLen).txs,
       (fetch_all_account_tx_from maxTxs pages acc calls lastLen).calls) =
        specFetchFrom maxTxs pages acc calls := by
  intro pages
  induction pages with
  | nil => intro acc calls lastLen _; rfl
  | cons p rest ih =>
    intro acc calls lastLen h
    have hnle : ¬ maxTxs ≤ acc.length := Nat.not_le.mpr h
    by_cases he : p.transactions.isEmpty
    · simp [fetch_all_account_tx_from, specFetchFrom, hnle, he]
    · by_cases hc : maxTxs ≤ (acc ++ p.transactions).length
      · cases hm : p.marker with
        | none =>
          simp [fetch_all_account_tx_from, specFetchFrom, hnle, he, hm, hc]
        | some m =>
          simp only [fetch_all_account_tx_from, specFetchFrom, hnle, he, hm,
            if_neg hnle, if_pos hc, Bool.false_eq_true, if_false]
          rw [fetch_from_stopped maxTxs rest _ _ _ hc]
      · have hlt : (acc ++ p.transactions).length < maxTxs := Nat.not_le.mp hc
        cases hm : p.marker with
        | none =>
          simp [fetch_all_account_tx_from, specFetchFrom, hnle, he, hm, hc]
        | some m =>
          simp only [fetch_all_account_tx_from, specFetchFrom, hnle, he, hm,
            if_neg hnle, if_neg hc, Bool.false_eq_true, if_false]
          exact ih _ _ _ hlt

theorem fetch_from_len_le (maxTxs : Nat) :
    ∀ (pages : List Page) (acc : List Tx) (calls lastLen : Nat),
      acc.length < maxTxs →
      (fetch_all_account_tx_from maxTxs pages acc calls lastLen).txs.length ≤
        (maxTxs - 1) +
          (fetch_all_account_tx_from maxTxs pages acc calls lastLen).lastPageLen := by
  intro pages
  induction pages with
  | nil =>
    intro acc calls lastLen h
    exact le_trans (Nat.le_pred_of_lt h) (Nat.le_add_right _ _)
  | cons p rest ih =>
    intro acc calls lastLen h
    have hnle : ¬ maxTxs ≤ acc.length := Nat.not_le.mpr h
    have hacc : acc.length ≤ maxTxs - 1 := Nat.le_pred_of_lt h
    by_cases he : p.transactions.isEmpty
    · simp only [fetch_all_account_tx_from, if_neg hnle, if_pos he]
      exact le_trans hacc (Nat.le_add_right _ _)
    · cases hm : p.marker with
      | none =>
        simp only [fetch_all_account_tx_from, if_neg hnle, if_neg he, hm]
        simpa [List.length_append] using
          Nat.add_le_add_right hacc p.transactions.length
      | some m =>
        simp only [fetch_all_account_tx_from, if_neg hnle, if_neg he, hm]
        by_cases hc : (acc ++ p.transactions).length < maxTxs
        · exact ih _ _ _ hc
        · rw [fetch_from_stopped maxTxs rest _ _ _ (Nat.not_lt.mp hc)]
          simpa [List.length_append] using
            Nat.add_le_add_right hacc p.transactions.length

/-- C2: for every sequence of page responses the fetch loop's result and
call count coincide with the spec's stop conditions (empty page, cap
reached, no marker, in that order), and in the two-page scenario — first
page with a marker, second without — the fetcher issues exactly two calls
and returns the two pages' records concatenated in received order. -/
theorem fetch_stop_conditions (maxTxs : Nat) (pages : List Page)
    (ts1 ts2 : List Tx) (m : Nat) (h1 : 1 ≤ maxTxs) (h2 : ts1 ≠ [])
    (h3 : ts1.length < maxTxs) :
    ((fetch_all_account_tx maxTxs pages).txs,
      (fetch_all_account_tx maxTxs pages).calls) = specFetch maxTxs pages
    ∧ (fetch_all_account_tx maxTxs
        [Page.mk ts1 (some m), Page.mk ts2 none]).txs = ts1 ++ ts2
    ∧ (fetch_all_account_tx maxTxs
        [Page.mk ts1 (some m), Page.mk ts2 none]).calls = 2 := by
  have h0 : ([] : List Tx).length < maxTxs := by simpa using h1
  have he1 : ts1.isEmpty = false := by
    cases ts1 with
    | nil => exact absurd rfl h2
    | cons a l => rfl
  have hn3 : ¬ maxTxs ≤ ts1.length := Nat.not_le.mpr h3
  have hne : maxTxs ≠ 0 := Nat.pos_iff_ne_zero.mp h1
  have hscen : fetch_all_account_tx maxTxs
      [Page.mk ts1 (some m), Page.mk ts2 none] =
      ⟨ts1 ++ ts2, 2, ts2.length⟩ := by
    by_cases he2 : ts2.isEmpty
    · have : ts2 = [] := List.isEmpty_iff.mp he2
      subst this
      simp [fetch_all_account_tx, fetch_all_account_tx_from,
        Nat.not_le.mpr h0, he1, hn3, hne]
    · simp [fetch_all_account_tx, fetch_all_account_tx_from,
        Nat.not_le.mpr h0, he1, hn3, he2, hne]
  refine ⟨fetch_from_eq_spec maxTxs pages [] 0 0 h0, ?_, ?_⟩ <;>
    simp [hscen]

/-- C10: the fetcher can overshoot the cap — with max_txs = 1 a single
two-record page is returned whole — and in general the result never
exceeds max_txs - 1 plus the size of the last page received. -/
theorem fetch_cap_overshoot :
    1 < (fetch_all_account_tx 1 [Page.mk [blankTx, blankTx] none]).txs.length
    ∧ ∀ (maxTxs : Nat) (pages : List Page),
        (fetch_all_account_tx maxTxs pages).txs.length ≤
          (maxTxs - 1) + (fetch_all_account_tx maxTxs pages).lastPageLen := by
  constructor
  · simp [fetch_all_account_tx, fetch_all_account_tx_from]
  · intro maxTxs pages
    rcases Nat.eq_zero_or_pos maxTxs with h0 | hpos
    · subst h0
      rw [fetch_all_account_tx,
        fetch_from_stopped 0 pages [] 0 0 (Nat.le_refl 0)]
      simp
    · exact fetch_from_len_le maxTxs pages [] 0 0 (by simpa using hpos)

/-- Witness for the hypotheses of fetch_stop_conditions at cap 3 with two
concrete single-record pages. -/
theorem fetch_stop_conditions_witness :
    ((fetch_all_account_tx 3 []).txs, (fetch_all_account_tx 3 []).calls) =
        specFetch 3 []
    ∧ (fetch_all_account_tx 3
        [Page.mk [blankTx] (some 0), Page.mk [blankTx] none]).txs =
        [blankTx] ++ [blankTx]
    ∧ (fetch_all_account_tx 3
        [Page.mk [blankTx] (some 0), Page.mk [blankTx] none]).calls = 2 :=
  fetch_stop_conditions 3 [] [blankTx] [blankTx] 0 (by decide)
    (by simp) (by simp)

/-! ## Association-list and set helpers -/

theorem foldl_preserves {α σ : Type} (step : σ → α → σ) (P : σ → Prop)
    (h : ∀ s a, P s → P (step s a)) :
    ∀ (l : List α) (s : σ), P s → P (l.foldl step s) := by
  intro l
  induction l with
  | nil => intro s hs; exact hs
  | cons a l ih => intro s hs; exact ih (step s a) (h s a hs)

theorem bump_keys {α : Type} [Add α] (k : String) (v : α) :
    ∀ l : List (String × α),
      (bump k v l).map Prod.fst =
        if k ∈ l.map Prod.fst then l.map Prod.fst
        else l.map Prod.fst ++ [k] := by
  intro l
  induction l with
  | nil => simp [bump]
  | cons p rest ih =>
    by_cases h : p.1 = k
    · simp [bump, h]
    · by_cases hm : k ∈ rest.map Prod.fst <;>
        simp [bump, h, ih, hm, Ne.symm h]

theorem bump_keys_nodup {α : Type} [Add α] (k : String) (v : α)
    (l : List (String × α)) (h : (l.map Prod.fst).Nodup) :
    ((bump k v l).map Prod.fst).Nodup := by
  rw [bump_keys]
  by_cases hm : k ∈ l.map Prod.fst
  · simpa [hm] using h
  · simp [hm, List.nodup_append, h]

theorem mem_bump_keys {α : Type} [Add α] (k : String) (v : α)
    (l : List (String × α)) (a : String) :
    a ∈ (bump k v l).map Prod.fst ↔ a ∈ l.map Prod.fst ∨ a = k := by
  rw [bump_keys]
  by_cases hm : k ∈ l.map Prod.fst
  · simp only [hm, if_pos]
    constructor
    · exact Or.inl
    · rintro (h | rfl)
      · exact h
      · exact hm
  · simp [hm]

theorem setInsert_nodup (a : String) (l : List String) (h : l.Nodup) :
    (setInsert a l).Nodup := by
  unfold setInsert
  by_cases hm : a ∈ l <;> simp [hm, h]

theorem mem_setInsert (a b : String) (l : List String) :
    b ∈ setInsert a l ↔ b ∈ l ∨ b = a := by
  unfold setInsert
  by_cases hm : a ∈ l
  · simp only [hm, if_pos]
    constructor
    · exact Or.inl
    · rintro (h | rfl)
      · exact h
      · exact hm
  · simp [hm, or_comm]

/-! ## Reward-loop step characterisation -/

/-- The parsed amount of a record (0 when unparsable); the contribution a
qualifying record makes to every accumulator. -/
def qualAmount (tx : Tx) : ℚ := (parse_pft_amount tx.amount).getD 0

theorem rewardQualifies_iff (tx : Tx) :
    rewardQualifies tx = true ↔
      tx.transactionType = ("Payment") ∧ tx.account ∈ REWARD_ADDRESSES ∧
      (∃ p : ℚ, parse_pft_amount tx.amount = some p ∧ 0 < p) ∧
      tx.destination ∉ SYSTEM_ACCOUNTS := by
  cases hp : parse_pft_amount tx.amount with
  | none => simp [rewardQualifies, hp]
  | some p => simp [rewardQualifies, hp, and_assoc]

theorem rewardStep_not_qual (st : RewardState) (tx : Tx)
    (h : rewardQualifies tx = false) : rewardStep st tx = st := by
  by_cases ht : tx.transactionType = ("Payment")
  · by_cases ha : tx.account ∈ REWARD_ADDRESSES
    · cases hp : parse_pft_amount tx.amount with
      | none => simp [rewardStep, ht, ha, hp]
      | some p =>
        by_cases hpos : 0 < p
        · by_cases hd : tx.destination ∈ SYSTEM_ACCOUNTS
          · simp [rewardStep, ht, ha, hp, hpos, hd]
          · exfalso
            have : rewardQualifies tx = true :=
              (rewardQualifies_iff tx).mpr ⟨ht, ha, ⟨p, hp, hpos⟩, hd⟩
            rw [this] at h
            exact Bool.true_eq_false.mp h
        · simp [rewardStep, ht, ha, hp, hpos]
    · simp [rewardStep, ht, ha]
  · simp [rewardStep, ht]

theorem rewardStep_qual (st : RewardState) (tx : Tx) (p : ℚ)
    (ht : tx.transactionType = ("Payment")) (ha : tx.account ∈ REWARD_ADDRESSES)
    (hp : parse_pft_amount tx.amount = some p) (hpos : 0 < p)
    (hd : tx.destination ∉ SYSTEM_ACCOUNTS) :
    rewardStep st tx =
      { participants := setInsert tx.destination st.participants
        rewardsByRecipient := bump tx.destination p st.rewardsByRecipient
        rewardsByDay := bump (txDay tx) p st.rewardsByDay
        txCountByDay := bump (txDay tx) 1 st.txCountByDay
        totalPft := st.totalPft + p
        rewardList := st.rewardList ++
          [⟨tx.hash, tx.destination, p, txUnixTs tx, txDay tx⟩] } := by
  simp [rewardStep, ht, ha, hp, hpos, hd]

theorem qualAmount_of_parse (tx : Tx) (p : ℚ)
    (hp : parse_pft_amount tx.amount = some p) : qualAmount tx = p := by
  simp [qualAmount, hp]

/-! ## Grand total -/

theorem foldl_rewardStep_totalPft :
    ∀ (txs : List Tx) (st : RewardState),
      (txs.foldl rewardStep st).totalPft =
        st.totalPft + ((txs.filter rewardQualifies).map qualAmount).sum := by
  intro txs
  induction txs with
  | nil => intro st; simp
  | cons tx txs ih =>
    intro st
    by_cases hq : rewardQualifies tx = true
    · obtain ⟨ht, ha, ⟨p, hp, hpos⟩, hd⟩ := (rewardQualifies_iff tx).mp hq
      rw [List.foldl_cons, ih, rewardStep_qual st tx p ht ha hp hpos hd,
        List.filter_cons_of_pos hq]
      simp [qualAmount_of_parse tx p hp, add_assoc]
    · rw [List.foldl_cons, ih,
        rewardStep_not_qual st tx (Bool.not_eq_true _ ▸ hq),
        List.filter_cons_of_neg (by simpa using hq)]

/-- C1: the grand total accumulated by the reward scan (the value rounded
into total_pft_distributed) is exactly the sum of the parsed amounts of the
individually-qualifying records — Payment type, allow-listed source,
parsable positive amount, non-excluded destination — each counted once. -/
theorem reward_total_is_qualifying_sum
    (respFor : String → AccountInfoResp) (txs : List Tx) :
    (rewardFold txs).totalPft =
      ((txs.filter rewardQualifies).map qualAmount).sum
    ∧ (analyze_reward_transactions respFor txs).total_pft_distributed =
        round2 (((txs.filter rewardQualifies).map qualAmount).sum) := by
  have h : (rewardFold txs).totalPft =
      ((txs.filter rewardQualifies).map qualAmount).sum := by
    rw [rewardFold, foldl_rewardStep_totalPft txs initRewardState]
    simp [initRewardState]
  exact ⟨h, by rw [analyze_reward_transactions, h]⟩

/-! ## Amount parsing and silent skipping -/

theorem rewardStep_skip_of_nonpos (st : RewardState) (tx : Tx)
    (h : ∀ p : ℚ, parse_pft_amount tx.amount = some p → p ≤ 0) :
    rewardStep st tx = st := by
  by_cases ht : tx.transactionType = ("Payment")
  · by_cases ha : tx.account ∈ REWARD_ADDRESSES
    · cases hp : parse_pft_amount tx.amount with
      | none => simp [rewardStep, ht, ha, hp]
      | some p =>
        have hnpos : ¬ 0 < p := not_lt.mpr (h p hp)
        simp [rewardStep, ht, ha, hp, hnpos]
    · simp [rewardStep, ht, ha]
  · simp [rewardStep, ht]

theorem rewardFold_skip (tx : Tx) (l1 l2 : List Tx)
    (h : ∀ p : ℚ, parse_pft_amount tx.amount = some p → p ≤ 0) :
    rewardFold (l1 ++ tx :: l2) = rewardFold (l1 ++ l2) := by
  rw [rewardFold, rewardFold, List.foldl_append, List.foldl_append,
    List.foldl_cons, rewardStep_skip_of_nonpos _ tx h]

/-- C3: parse_pft_amount accepts exactly an integer-string or native-integer
amount, scaling by 1/1,000,000 ("1500000" yields 1.5); any other shape,
parse failure, or non-positive parsed value makes the reward aggregation
skip the record silently — the analysis of the list with the record equals
the analysis without it. -/
theorem parse_amount_shapes (s : String) (n : ℤ) (tx : Tx)
    (respFor : String → AccountInfoResp) (l1 l2 : List Tx) :
    (pyInt? s = some n →
      parse_pft_amount (JsonVal.str s) = some ((n : ℚ) / 1000000))
    ∧ (pyInt? s = none → parse_pft_amount (JsonVal.str s) = none)
    ∧ parse_pft_amount (JsonVal.int n) = some ((n : ℚ) / 1000000)
    ∧ parse_pft_amount JsonVal.null = none
    ∧ parse_pft_amount JsonVal.other = none
    ∧ parse_pft_amount (JsonVal.str ("1500000")) = some ((3 : ℚ) / 2)
    ∧ ((∀ p : ℚ, parse_pft_amount tx.amount = some p → p ≤ 0) →
        analyze_reward_transactions respFor (l1 ++ tx :: l2) =
          analyze_reward_transactions respFor (l1 ++ l2)) := by
  refine ⟨?_, ?_, by simp [parse_pft_amount], by simp [parse_pft_amount],
    by simp [parse_pft_amount], ?_, ?_⟩
  · intro h; simp [parse_pft_amount, h]
  · intro h; simp [parse_pft_amount, h]
  · simp [parse_pft_amount, show pyInt? ("1500000") = some 1500000 from by decide]
    norm_num
  · intro h
    have hfold := rewardFold_skip tx l1 l2 h
    rw [analyze_reward_transactions, analyze_reward_transactions, hfold]

/-- Witness for parse_amount_shapes: "1500000" parses to 1500000/1000000,
and a record with a None amount is skipped by the aggregation. -/
theorem parse_amount_shapes_witness :
    parse_pft_amount (JsonVal.str ("1500000")) =
        some ((1500000 : ℚ) / 1000000)
    ∧ analyze_reward_transactions (fun _ => ⟨false, JsonVal.str ("0")⟩)
        ([] ++ blankTx :: []) =
      analyze_reward_transactions (fun _ => ⟨false, JsonVal.str ("0")⟩)
        ([] ++ []) := by
  have h := parse_amount_shapes ("1500000") 1500000 blankTx
    (fun _ => ⟨false, JsonVal.str ("0")⟩) [] []
  refine ⟨h.1 (by decide), h.2.2.2.2.2.2 ?_⟩
  intro p hp
  simp [blankTx, parse_pft_amount] at hp

/-! ## Single scaling of monetary values -/

/-- The raw integer minor-unit (drops) value of a record's amount field
(0 when absent or unparsable). -/
def rawDrops (tx : Tx) : ℤ :=
  match tx.amount with
  | .str s => (pyInt? s).getD 0
  | .int n => n
  | .null => 0
  | .other => 0

theorem qualAmount_eq_rawDrops_scaled (tx : Tx)
    (hq : rewardQualifies tx = true) :
    qualAmount tx = (rawDrops tx : ℚ) / 1000000 := by
  obtain ⟨_, _, ⟨p, hp, _⟩, _⟩ := (rewardQualifies_iff tx).mp hq
  cases ha : tx.amount with
  | str s =>
    rw [ha] at hp
    cases hi : pyInt? s with
    | none => rw [parse_pft_amount, hi] at hp; exact absurd hp (by simp)
    | some d =>
      rw [parse_pft_amount, hi] at hp
      simp only [Option.some.injEq] at hp
      simp [qualAmount, ha, parse_pft_amount, hi, rawDrops, ← hp]
  | int n =>
    rw [ha] at hp
    simp [qualAmount, ha, parse_pft_amount, rawDrops]
  | null => rw [ha] at hp; exact absurd hp (by simp [parse_pft_amount])
  | other => rw [ha] at hp; exact absurd hp (by simp [parse_pft_amount])

theorem sum_scaled_eq_scaled_sum :
    ∀ l : List Tx, (∀ tx ∈ l, rewardQualifies tx = true) →
      (l.map qualAmount).sum = ((l.map rawDrops).sum : ℚ) / 1000000 := by
  intro l
  induction l with
  | nil => simp
  | cons tx l ih =>
    intro h
    have htx := h tx (List.mem_cons_self tx l)
    have hl : ∀ t ∈ l, rewardQualifies t = true :=
      fun t ht => h t (List.mem_cons_of_mem tx ht)
    rw [List.map_cons, List.map_cons, List.sum_cons, List.sum_cons, ih hl,
      qualAmount_eq_rawDrops_scaled tx htx]
    push_cast
    rw [add_div]

/-- C9 counterexample: the value stored for a 1,500,000-drop payment is the
already-scaled rational 3/2 — a non-integer (denominator 2) — both as the
parse result and in the running grand-total accumulator, before any
rounding; so monetary values are not kept as integer minor units until
final rounding. -/
theorem scaled_storage_counterexample :
    parse_pft_amount (JsonVal.str ("1500000")) = some ((3 : ℚ) / 2)
    ∧ (rewardFold [tx15]).totalPft = (3 : ℚ) / 2
    ∧ ((3 : ℚ) / 2).den ≠ 1 := by
  have hp : parse_pft_amount (JsonVal.str ("1500000")) =
      some ((1500000 : ℚ) / 1000000) := by
    simp [parse_pft_amount, show pyInt? ("1500000") = some 1500000 from by decide]
  refine ⟨by rw [hp]; norm_num, ?_, by norm_num⟩
  simp [rewardFold, rewardStep, tx15, initRewardState, hp,
    show ((0 : ℚ) < 1500000 / 1000000) from by norm_num,
    show ("rGBKxoTcavpfEso7ASRELZAMcCMqKa8oFk" : String) ∈ REWARD_ADDRESSES
      from by decide,
    show ("rDest1" : String) ∉ SYSTEM_ACCOUNTS from by decide]
  norm_num

/-- C9 as amended: each raw value is scaled by 1/1,000,000 exactly once, at
parse time; the accumulators then sum the scaled values, so the accumulated
grand total equals the integer minor-unit sum scaled once, and rounding to
two decimals happens only at presentation. -/
theorem single_scaling (respFor : String → AccountInfoResp) (txs : List Tx)
    (s : String) (n : ℤ) (hs : pyInt? s = some n) :
    parse_pft_amount (JsonVal.str s) = some ((n : ℚ) / 1000000)
    ∧ parse_pft_amount (JsonVal.int n) = some ((n : ℚ) / 1000000)
    ∧ (rewardFold txs).totalPft =
        (((txs.filter rewardQualifies).map rawDrops).sum : ℚ) / 1000000
    ∧ (analyze_reward_transactions respFor txs).total_pft_distributed =
        round2 ((rewardFold txs).totalPft) := by
  refine ⟨by simp [parse_pft_amount, hs], by simp [parse_pft_amount], ?_, ?_⟩
  · rw [(reward_total_is_qualifying_sum respFor txs).1,
      sum_scaled_eq_scaled_sum (txs.filter rewardQualifies)
        (fun t ht => List.of_mem_filter ht)]
  · rw [analyze_reward_transactions]

/-- Witness for single_scaling at a concrete parsable drops string. -/
theorem single_scaling_witness :
    parse_pft_amount (JsonVal.str ("2000000")) =
        some ((2000000 : ℚ) / 1000000)
    ∧ parse_pft_amount (JsonVal.int 2000000) =
        some ((2000000 : ℚ) / 1000000)
    ∧ (rewardFold [tx15]).totalPft =
        ((([tx15].filter rewardQualifies).map rawDrops).sum : ℚ) / 1000000
    ∧ (analyze_reward_transactions (fun _ => ⟨true, JsonVal.null⟩)
        [tx15]).total_pft_distributed =
        round2 ((rewardFold [tx15]).totalPft) :=
  single_scaling (fun _ => ⟨true, JsonVal.null⟩) [tx15] ("2000000") 2000000
    (by decide)

/-! ## Memo-loop step characterisation -/

/-- The submission_list entry built for a kept record. -/
def mkSubmissionEntry (tx : Tx) : SubmissionEntry :=
  ⟨tx.hash, tx.account, txUnixTs tx, txDay tx⟩

theorem memoQualifies_iff (tx : Tx) :
    memoQualifies tx = true ↔
      tx.transactionType = ("Payment") ∧ tx.destination = MEMO_ADDRESS ∧
      tx.account ∉ SYSTEM_ACCOUNTS ∧ tx.memos.any memoHasPtr = true := by
  simp [memoQualifies, and_assoc]

theorem memoStep_not_qual (st : MemoState) (tx : Tx)
    (h : memoQualifies tx = false) : memoStep st tx = st := by
  by_cases ht : tx.transactionType = ("Payment")
  · by_cases hd : tx.destination = MEMO_ADDRESS
    · by_cases ha : tx.account ∈ SYSTEM_ACCOUNTS
      · simp [memoStep, ht, hd, ha]
      · by_cases hm : tx.memos.any memoHasPtr = true
        · exfalso
          have : memoQualifies tx = true :=
            (memoQualifies_iff tx).mpr ⟨ht, hd, ha, hm⟩
          rw [this] at h
          exact Bool.true_eq_false.mp h
        · simp [memoStep, ht, hd, ha, hm]
    · simp [memoStep, ht, hd]
  · simp [memoStep, ht]

theorem memoStep_qual (st : MemoState) (tx : Tx)
    (ht : tx.transactionType = ("Payment")) (hd : tx.destination = MEMO_ADDRESS)
    (ha : tx.account ∉ SYSTEM_ACCOUNTS) (hm : tx.memos.any memoHasPtr = true) :
    memoStep st tx =
      { submitters := setInsert tx.account st.submitters
        submissionsBySender := bump tx.account 1 st.submissionsBySender
        submissionsByDay := bump (txDay tx) 1 st.submissionsByDay
        totalSubmissions := st.totalSubmissions + 1
        submissionList := st.submissionList ++ [mkSubmissionEntry tx] } := by
  simp [memoStep, ht, hd, ha, hm, mkSubmissionEntry]

theorem foldl_memoStep_list :
    ∀ (txs : List Tx) (st : MemoState),
      (txs.foldl memoStep st).submissionList =
        st.submissionList ++ (txs.filter memoQualifies).map mkSubmissionEntry
      ∧ (txs.foldl memoStep st).totalSubmissions =
          st.totalSubmissions + (txs.filter memoQualifies).length := by
  intro txs
  induction txs with
  | nil => intro st; simp
  | cons tx txs ih =>
    intro st
    by_cases hq : memoQualifies tx = true
    · obtain ⟨ht, hd, ha, hm⟩ := (memoQualifies_iff tx).mp hq
      rw [List.foldl_cons, memoStep_qual st tx ht hd ha hm,
        List.filter_cons_of_pos hq]
      constructor
      · rw [(ih _).1]
        simp
      · rw [(ih _).2]
        simp [Nat.add_comm, Nat.add_assoc, Nat.add_left_comm]
    · rw [List.foldl_cons, memoStep_not_qual st tx (Bool.not_eq_true _ ▸ hq),
        List.filter_cons_of_neg (by simpa using hq)]
      exact ih st

/-- C5: the submission aggregation keeps exactly the Payment records sent
to the collector address from a non-excluded source that carry at least one
memo whose lower-cased type hex contains the pf.ptr tag fragment; a record
without such a memo never qualifies, even if sent to the collector. -/
theorem memo_filter_exact (txs : List Tx) :
    (memoFold txs).submissionList =
      (txs.filter memoQualifies).map mkSubmissionEntry
    ∧ (analyze_memo_transactions txs).total_submissions =
        (txs.filter memoQualifies).length
    ∧ ∀ tx : Tx, tx.memos.any memoHasPtr = false → memoQualifies tx = false := by
  refine ⟨?_, ?_, ?_⟩
  · rw [memoFold, (foldl_memoStep_list txs initMemoState).1]
    simp [initMemoState]
  · rw [analyze_memo_transactions, memoFold,
      (foldl_memoStep_list txs initMemoState).2]
    simp [initMemoState]
  · intro tx hm
    simp [memoQualifies, hm]

/-- A Payment to the collector whose only memo lacks the pf.ptr tag. -/
def txMemoBad : Tx :=
  { transactionType := "Payment", account := "rSender1",
    destination := "rwdm72S9YVKkZjeADKU2bbUMuY4vPnSfH7",
    amount := JsonVal.int 1, date := 0, hash := "h2",
    memos := [⟨"DEADBEEF"⟩] }

/-- Witness for memo_filter_exact: a collector-addressed payment whose memo
type hex lacks the tag fragment does not qualify. -/
theorem memo_filter_exact_witness :
    (memoFold []).submissionList =
      (([] : List Tx).filter memoQualifies).map mkSubmissionEntry
    ∧ memoQualifies txMemoBad = false :=
  ⟨(memo_filter_exact []).1, (memo_filter_exact []).2.2 txMemoBad (by decide)⟩

/-! ## Comparator lemmas -/

theorem charListLe_cons (a b : Char) (as bs : List Char) :
    charListLe (a :: as) (b :: bs) =
      if a < b then true else if b < a then false else charListLe as bs := rfl

theorem charListLt_cons (a b : Char) (as bs : List Char) :
    charListLt (a :: as) (b :: bs) =
      if a < b then true else if b < a then false else charListLt as bs := rfl

theorem charListLe_trans :
    ∀ x y z : List Char, charListLe x y = true → charListLe y z = true →
      charListLe x z = true := by
  intro x
  induction x with
  | nil => intro y z _ _; rfl
  | cons a as ih =>
    intro y z h1 h2
    cases y with
    | nil => simp [charListLe] at h1
    | cons b bs =>
      cases z with
      | nil => simp [charListLe] at h2
      | cons c cs =>
        rcases lt_trichotomy a b with hab | hab | hba
        · rcases lt_trichotomy b c with hbc | hbc | hcb
          · simp [charListLe_cons, lt_trans hab hbc]
          · subst hbc; simp [charListLe_cons, hab]
          · rw [charListLe_cons, if_neg (lt_asymm hcb), if_pos hcb] at h2
            exact absurd h2 (by simp)
        · subst hab
          rw [charListLe_cons, if_neg (lt_irrefl a), if_neg (lt_irrefl a)] at h1
          rcases lt_trichotomy a c with hac | hac | hca
          · simp [charListLe_cons, hac]
          · subst hac
            rw [charListLe_cons, if_neg (lt_irrefl a), if_neg (lt_irrefl a)]
              at h2 ⊢
            exact ih bs cs h1 h2
          · rw [charListLe_cons, if_neg (lt_asymm hca), if_pos hca] at h2
            exact absurd h2 (by simp)
        · rw [charListLe_cons, if_neg (lt_asymm hba), if_pos hba] at h1
          exact absurd h1 (by simp)

theorem charListLe_total :
    ∀ x y : List Char, charListLe x y = true ∨ charListLe y x = true := by
  intro x
  induction x with
  | nil => intro y; exact Or.inl rfl
  | cons a as ih =>
    intro y
    cases y with
    | nil => exact Or.inr rfl
    | cons b bs =>
      rcases lt_trichotomy a b with hab | hab | hba
      · exact Or.inl (by simp [charListLe_cons, hab])
      · subst hab
        rcases ih bs with h | h
        · exact Or.inl
            (by rw [charListLe_cons, if_neg (lt_irrefl a),
                  if_neg (lt_irrefl a)]; exact h)
        · exact Or.inr
            (by rw [charListLe_cons, if_neg (lt_irrefl a),
                  if_neg (lt_irrefl a)]; exact h)
      · exact Or.inr (by simp [charListLe_cons, hba])

theorem charListLt_of_le_of_ne :
    ∀ x y : List Char, charListLe x y = true → x ≠ y →
      charListLt x y = true := by
  intro x
  induction x with
  | nil =>
    intro y _ hne
    cases y with
    | nil => exact absurd rfl hne
    | cons b bs => rfl
  | cons a as ih =>
    intro y h1 hne
    cases y with
    | nil => simp [charListLe] at h1
    | cons b bs =>
      rcases lt_trichotomy a b with hab | hab | hba
      · simp [charListLt_cons, hab]
      · subst hab
        rw [charListLe_cons, if_neg (lt_irrefl a), if_neg (lt_irrefl a)] at h1
        rw [charListLt_cons, if_neg (lt_irrefl a), if_neg (lt_irrefl a)]
        exact ih bs h1 (fun h => hne (by rw [h]))
      · rw [charListLe_cons, if_neg (lt_asymm hba), if_pos hba] at h1
        exact absurd h1 (by simp)

theorem strLt_of_le_of_ne (a b : String) (h : strLe a b = true)
    (hne : a ≠ b) : strLt a b = true :=
  charListLt_of_le_of_ne a.data b.data h
    (fun hd => hne (String.ext hd))

theorem pairGe_iff (x y : ℚ × ℚ) :
    pairGe x y = true ↔ y.1 < x.1 ∨ (y.1 = x.1 ∧ y.2 ≤ x.2) := by
  simp [pairGe]

theorem pairGe_trans (x y z : ℚ × ℚ) (h1 : pairGe x y = true)
    (h2 : pairGe y z = true) : pairGe x z = true := by
  rw [pairGe_iff] at h1 h2 ⊢
  rcases h1 with h1 | ⟨h1e, h1le⟩
  · rcases h2 with h2 | ⟨h2e, h2le⟩
    · exact Or.inl (lt_trans h2 h1)
    · exact Or.inl (h2e ▸ h1)
  · rcases h2 with h2 | ⟨h2e, h2le⟩
    · exact Or.inl (lt_of_lt_of_le h2 (le_of_eq h1e))
    · exact Or.inr ⟨h2e.trans h1e, le_trans h2le h1le⟩

theorem pairGe_total (x y : ℚ × ℚ) : (pairGe x y || pairGe y x) = true := by
  rw [Bool.or_eq_true, pairGe_iff, pairGe_iff]
  rcases lt_trichotomy x.1 y.1 with h | h | h
  · exact Or.inr (Or.inl h)
  · rcases le_total y.2 x.2 with h2 | h2
    · exact Or.inl (Or.inr ⟨h.symm, h2⟩)
    · exact Or.inr (Or.inr ⟨h, h2⟩)
  · exact Or.inl (Or.inl h)

/-- Sorting by the strLe key of any projection yields a strictly increasing
key sequence whenever the input keys are distinct. -/
theorem pairwise_strLt_mergeSort {β : Type} (key : β → String) (l : List β)
    (hn : (l.map key).Nodup) :
    List.Pairwise (fun a b => strLt (key a) (key b) = true)
      (l.mergeSort (fun a b => strLe (key a) (key b))) := by
  have hs := @List.sorted_mergeSort β (fun a b => strLe (key a) (key b))
    (fun a b c h1 h2 => charListLe_trans _ _ _ h1 h2)
    (fun a b => Bool.or_eq_true _ _ ▸ charListLe_total (key a).data (key b).data)
    l
  have hperm := List.mergeSort_perm l (fun a b => strLe (key a) (key b))
  have hn' : ((l.mergeSort (fun a b => strLe (key a) (key b))).map key).Nodup :=
    ((hperm.map key).nodup_iff).mpr hn
  have hne : List.Pairwise (fun a b => key a ≠ key b)
      (l.mergeSort (fun a b => strLe (key a) (key b))) :=
    List.pairwise_map.mp hn'
  exact (hs.and hne).imp (fun h => strLt_of_le_of_ne _ _ h.1 h.2)

/-! ## Scan-state invariants -/

/-- Invariant maintained by the reward scan: distinct keys in every dict,
participant set and recipient-dict keys coincide, and no recipient key is
an excluded address. -/
def RewardInv (st : RewardState) : Prop :=
  (st.rewardsByRecipient.map Prod.fst).Nodup
  ∧ (st.rewardsByDay.map Prod.fst).Nodup
  ∧ st.participants.Nodup
  ∧ (∀ a, a ∈ st.participants ↔ a ∈ st.rewardsByRecipient.map Prod.fst)
  ∧ (∀ a ∈ st.rewardsByRecipient.map Prod.fst, a ∉ SYSTEM_ACCOUNTS)

theorem rewardFold_inv (txs : List Tx) : RewardInv (rewardFold txs) := by
  apply foldl_preserves rewardStep RewardInv
  · intro st tx h
    obtain ⟨h1, h2, h3, h4, h5⟩ := h
    by_cases hq : rewardQualifies tx = true
    · obtain ⟨ht, ha, ⟨p, hp, hpos⟩, hd⟩ := (rewardQualifies_iff tx).mp hq
      rw [rewardStep_qual st tx p ht ha hp hpos hd]
      refine ⟨bump_keys_nodup _ _ _ h1, bump_keys_nodup _ _ _ h2,
        setInsert_nodup _ _ h3, ?_, ?_⟩
      · intro a
        rw [mem_setInsert, mem_bump_keys, h4]
      · intro a hab
        rcases (mem_bump_keys _ _ _ a).mp hab with hmem | rfl
        · exact h5 a hmem
        · exact hd
    · rw [rewardStep_not_qual st tx (Bool.not_eq_true _ ▸ hq)]
      exact ⟨h1, h2, h3, h4, h5⟩
  · exact ⟨List.nodup_nil, List.nodup_nil, List.nodup_nil,
      fun a => by simp [initRewardState], fun a h => by simp [initRewardState] at h⟩

/-- Invariant maintained by the memo scan: distinct day keys. -/
theorem memoFold_day_nodup (txs : List Tx) :
    ((memoFold txs).submissionsByDay.map Prod.fst).Nodup := by
  apply foldl_preserves memoStep
    (fun st => (st.submissionsByDay.map Prod.fst).Nodup)
  · intro st tx h
    by_cases hq : memoQualifies tx = true
    · obtain ⟨ht, hd, ha, hm⟩ := (memoQualifies_iff tx).mp hq
      rw [memoStep_qual st tx ht hd ha hm]
      exact bump_keys_nodup _ _ _ h
    · rw [memoStep_not_qual st tx (Bool.not_eq_true _ ▸ hq)]
      exact h
  · exact List.nodup_nil

/-! ## Leaderboard claims -/

/-- C4: the reward leaderboard is ordered descending on the (balance,
total) key — balance primary, total breaking equal balances — and holds
min 25 N entries for N distinct recipients. -/
theorem leaderboard_sorted_truncated (respFor : String → AccountInfoResp)
    (txs : List Tx) :
    List.Pairwise (fun a b : LeaderboardEntry =>
        b.balance < a.balance ∨
          (b.balance = a.balance ∧ b.total_pft ≤ a.total_pft))
      (analyze_reward_transactions respFor txs).leaderboard
    ∧ (analyze_reward_transactions respFor txs).leaderboard.length =
        min 25 (analyze_reward_transactions respFor txs).unique_recipients := by
  obtain ⟨h1, _, h3, h4, _⟩ := rewardFold_inv txs
  constructor
  · have hs := @List.sorted_mergeSort LeaderboardEntry lbLe
      (fun a b c hab hbc => pairGe_trans _ _ _ hab hbc)
      (fun a b => pairGe_total _ _)
      ((rewardFold txs).rewardsByRecipient.map fun p =>
        LeaderboardEntry.mk p.1 (round2 p.2)
          (round2 (lookupD (enrichBalances respFor
            ((rewardFold txs).rewardsByRecipient.map Prod.fst)) p.1 0)))
    have htake := hs.sublist (List.take_sublist 25 _)
    refine List.Pairwise.imp ?_ htake
    intro a b hab
    exact (pairGe_iff (a.balance, a.total_pft) (b.balance, b.total_pft)).mp hab
  · have hperm : (rewardFold txs).participants.Perm
        ((rewardFold txs).rewardsByRecipient.map Prod.fst) :=
      (List.perm_ext_iff_of_nodup h3 h1).mpr h4
    have hlen : (rewardFold txs).participants.length =
        (rewardFold txs).rewardsByRecipient.length := by
      rw [hperm.length_eq, List.length_map]
    simp only [analyze_reward_transactions, List.length_take,
      List.length_mergeSort, List.length_map]
    rw [hlen, inf_eq_min]

/-- C8: no excluded (system) address ever appears as a leaderboard
recipient, whatever the transaction amounts. -/
theorem excluded_never_in_leaderboard (respFor : String → AccountInfoResp)
    (txs : List Tx) (a : String) (ha : a ∈ SYSTEM_ACCOUNTS) :
    ∀ e ∈ (analyze_reward_transactions respFor txs).leaderboard,
      e.address ≠ a := by
  obtain ⟨_, _, _, _, h5⟩ := rewardFold_inv txs
  intro e he
  simp only [analyze_reward_transactions] at he
  have he2 := List.mem_of_mem_take he
  rw [(List.mergeSort_perm _ lbLe).mem_iff] at he2
  rw [List.mem_map] at he2
  obtain ⟨p, hp, rfl⟩ := he2
  have hkey : p.1 ∈ (rewardFold txs).rewardsByRecipient.map Prod.fst :=
    List.mem_map_of_mem Prod.fst hp
  intro hcontra
  have hpa : p.1 = a := hcontra
  exact h5 p.1 hkey (hpa ▸ ha)

/-- Witness for excluded_never_in_leaderboard: the sole entry of a
one-payment scan, checked against the memo collector address. -/
theorem excluded_never_in_leaderboard_witness :
    (LeaderboardEntry.mk ("rDest1") (round2 ((1500000 : ℚ) / 1000000))
      (round2 0)).address ≠ MEMO_ADDRESS := by
  have hp : parse_pft_amount (JsonVal.str ("1500000")) =
      some ((1500000 : ℚ) / 1000000) := by
    simp [parse_pft_amount, show pyInt? ("1500000") = some 1500000 from by decide]
  have hst : rewardFold [tx15] =
      ⟨[("rDest1")], [(("rDest1"), (1500000 : ℚ) / 1000000)],
        [(("unknown"), (1500000 : ℚ) / 1000000)], [(("unknown"), 1)],
        (1500000 : ℚ) / 1000000,
        [⟨("h1"), ("rDest1"), (1500000 : ℚ) / 1000000, 0, ("unknown")⟩]⟩ := by
    simp [rewardFold, rewardStep, tx15, initRewardState, hp,
      show ((0 : ℚ) < 1500000 / 1000000) from by norm_num,
      show ("rGBKxoTcavpfEso7ASRELZAMcCMqKa8oFk" : String) ∈ REWARD_ADDRESSES
        from by decide,
      show ("rDest1" : String) ∉ SYSTEM_ACCOUNTS from by decide,
      setInsert, bump, txDay, txUnixTs]
  have hlb : (analyze_reward_transactions (fun _ => ⟨true, JsonVal.null⟩)
      [tx15]).leaderboard =
      [LeaderboardEntry.mk ("rDest1") (round2 ((1500000 : ℚ) / 1000000))
        (round2 0)] := by
    simp [analyze_reward_transactions, hst, enrichBalances,
      fetch_account_balance, lookupD, List.find?]
  exact excluded_never_in_leaderboard (fun _ => ⟨true, JsonVal.null⟩) [tx15]
    MEMO_ADDRESS (by decide) _ (by rw [hlb]; exact List.mem_singleton_self _)

/-! ## Daily series claims -/

/-- C7: both emitted daily series have strictly increasing day keys — they
are sorted ascending with no duplicate day key — the "unknown" bucket
being an ordinary key. -/
theorem daily_series_sorted (respFor : String → AccountInfoResp)
    (txs txs2 : List Tx) :
    List.Pairwise (fun a b : DailyReward => strLt a.date b.date = true)
      (analyze_reward_transactions respFor txs).daily_activity
    ∧ List.Pairwise (fun a b : DailySubmissions => strLt a.date b.date = true)
      (analyze_memo_transactions txs2).daily_submissions := by
  constructor
  · obtain ⟨_, h2, _, _, _⟩ := rewardFold_inv txs
    have hn : (((rewardFold txs).rewardsByDay.map fun p =>
        DailyReward.mk p.1 (round2 p.2)
          (lookupD (rewardFold txs).txCountByDay p.1 0)).map
            DailyReward.date).Nodup := by
      rw [List.map_map]
      exact h2
    exact pairwise_strLt_mergeSort DailyReward.date _ hn
  · have h2 := memoFold_day_nodup txs2
    have hn : (((memoFold txs2).submissionsByDay.map fun p =>
        DailySubmissions.mk p.1 p.2).map DailySubmissions.date).Nodup := by
      rw [List.map_map]
      exact h2
    exact pairwise_strLt_mergeSort DailySubmissions.date _ hn

/-! ## Balance enrichment claims -/

theorem lookupD_enrich (respFor : String → AccountInfoResp) :
    ∀ (addrs : List String) (a : String), a ∈ addrs →
      lookupD (enrichBalances respFor addrs) a 0 =
        fetch_account_balance (respFor a) := by
  intro addrs
  induction addrs with
  | nil => intro a ha; exact absurd ha (List.not_mem_nil a)
  | cons b rest ih =>
    intro a ha
    by_cases hb : b = a
    · subst hb
      simp [enrichBalances, lookupD, List.find?]
    · have ha' : a ∈ rest := by
        rcases List.mem_cons.mp ha with rfl | h
        · exact absurd rfl hb
        · exact h
      have := ih a ha'
      simpa [enrichBalances, lookupD, List.find?, hb] using this

/-- C6: a balance lookup whose response carries an error object, or whose
Balance field is missing, null, malformed or a non-numeric string,
resolves to 0.0 rather than an error, and the enrichment pass still
computes every address's balance independently of the others. -/
theorem balance_error_degrades (resp : AccountInfoResp)
    (respFor : String → AccountInfoResp) (addrs : List String) (a : String)
    (h1 : resp.hasError = true) (h2 : a ∈ addrs) :
    fetch_account_balance resp = 0
    ∧ fetch_account_balance ⟨false, JsonVal.other⟩ = 0
    ∧ fetch_account_balance ⟨false, JsonVal.null⟩ = 0
    ∧ fetch_account_balance ⟨false, JsonVal.str ("12x")⟩ = 0
    ∧ (enrichBalances respFor addrs).length = addrs.length
    ∧ lookupD (enrichBalances respFor addrs) a 0 =
        fetch_account_balance (respFor a) := by
  refine ⟨by simp [fetch_account_balance, h1], rfl, rfl,
    by simp [fetch_account_balance,
      show pyInt? ("12x") = none from by decide], ?_, ?_⟩
  · simp [enrichBalances]
  · exact lookupD_enrich respFor addrs a h2

/-- Witness for balance_error_degrades: an error-bearing response with a
well-formed Balance still yields 0, while a later address in the same
enrichment pass still gets its own fetched balance. -/
theorem balance_error_degrades_witness :
    fetch_account_balance ⟨true, JsonVal.str ("5000000")⟩ = 0
    ∧ fetch_account_balance ⟨false, JsonVal.other⟩ = 0
    ∧ fetch_account_balance ⟨false, JsonVal.null⟩ = 0
    ∧ fetch_account_balance ⟨false, JsonVal.str ("12x")⟩ = 0
    ∧ (enrichBalances (fun _ => ⟨true, JsonVal.null⟩)
        [("addr1"), ("addr2")]).length = [("addr1"), ("addr2")].length
    ∧ lookupD (enrichBalances (fun _ => ⟨true, JsonVal.null⟩)
        [("addr1"), ("addr2")]) ("addr2") 0 =
        fetch_account_balance ((fun _ => (⟨true, JsonVal.null⟩ :
          AccountInfoResp)) ("addr2")) :=
  balance_error_degrades ⟨true, JsonVal.str ("5000000")⟩
    (fun _ => ⟨true, JsonVal.null⟩) [("addr1"), ("addr2")] ("addr2")
    rfl (by simp)

end PFT
